import Mathlib

/-!
Verification development for the optsail grib engine (`optsail/grib.py`).

Shallow embedding conventions:
* Timestamps (`DateTime` values, UTC) are modelled as rationals holding unix
  seconds; `(a - b).total_seconds()` is plain subtraction.
* Angles and longitudes are measured in units of pi radians: the source works
  in radians where every constant is a rational multiple of `math.pi`
  (`from_degs` multiplies degrees by `pi/180`), so dividing everything by pi
  gives an exact rational model: `2*pi` becomes `2`, `1.95*pi` becomes
  `39/20`, the `+ pi` in the wind-angle convention becomes `+ 1`.
* numpy float arrays become `List ℚ`; elementwise numpy arithmetic becomes
  `List.zipWith` / `List.map`.
* scipy `RectBivariateSpline` objects are external collaborators; a fitted
  spline is modelled as an opaque evaluation function `ℚ → ℚ → ℚ` and the
  library functions `np.arctan2` / `np.sqrt` are abstract parameters of the
  query functions.
* Python exceptions become `Except GribErr`; the error payloads keep the data
  that the source interpolates into the message strings.
-/

namespace Optsail

/-- Numeric value of a numpy boolean used in arithmetic (`True` is 1). -/
def bq (b : Bool) : ℚ := if b then 1 else 0

/-- Python truthiness of the optional `no_data_value` (`if self._no_data_value:`):
`None` and `0` are falsy. -/
def truthy : Option ℚ → Bool
  | none => false
  | some v => decide (v ≠ 0)

/-- A `Layer` from `grib.py`: timestamp, optional raw grid, fitted spatial
spline and optional nodata-fraction spline (`__getitem__` order t, data,
spline, nodata). -/
structure Layer where
  t : ℚ
  data : Option (List (List ℚ))
  spline : ℚ → ℚ → ℚ
  nodata : Option (ℚ → ℚ → ℚ)

instance : Inhabited Layer := ⟨⟨0, none, fun _ _ => 0, none⟩⟩

/-- The `GribError` hierarchy of `grib.py`; payloads replace the interpolated
message strings: `GribDataError`, `GribRangeError` (offending coordinates),
`GribSpanError` (query time, first and last timestamp). -/
inductive GribErr where
  | dataError
  | rangeError (offending : List ℚ)
  | spanError (time first last : ℚ)

/-- Whether an error is a `GribSpanError`. -/
def GribErr.isSpan : GribErr → Bool
  | .spanError _ _ _ => true
  | _ => false

/-- Whether an error is a `GribDataError`. -/
def GribErr.isData : GribErr → Bool
  | .dataError => true
  | _ => false

/-- Whether an error is a `GribRangeError`. -/
def GribErr.isRange : GribErr → Bool
  | .rangeError _ => true
  | _ => false

/-- Whether a computation raised a `GribSpanError`. -/
def raisesSpan {α : Type} : Except GribErr α → Bool
  | .error e => e.isSpan
  | .ok _ => false

/-- Whether a computation raised a `GribRangeError`. -/
def raisesRange {α : Type} : Except GribErr α → Bool
  | .error e => e.isRange
  | .ok _ => false

/-! ### Python `bisect`

`grib.py` uses `bisect.bisect` (= `bisect_right`) for the temporal lookup and
`bisect.bisect_left` for layer insertion.  Both are embedded as the CPython
`lo`/`hi` binary-search loops, with `a[mid]` read through `List.getD` (the
searches only ever index inside `[0, len)`). -/

/-- CPython `bisect_right` loop body. -/
def bisectRightAux (l : List ℚ) (x : ℚ) (lo hi : ℕ) : ℕ :=
  if _h : lo < hi then
    let mid := (lo + hi) / 2
    if x < l.getD mid 0 then bisectRightAux l x lo mid
    else bisectRightAux l x (mid + 1) hi
  else lo
termination_by hi - lo
decreasing_by
  · omega
  · omega

/-- `bisect.bisect(l, x)` with the default `lo = 0`, `hi = len(l)`. -/
def bisectRight (l : List ℚ) (x : ℚ) : ℕ := bisectRightAux l x 0 l.length

/-- CPython `bisect_left` loop body. -/
def bisectLeftAux (l : List ℚ) (x : ℚ) (lo hi : ℕ) : ℕ :=
  if _h : lo < hi then
    let mid := (lo + hi) / 2
    if l.getD mid 0 < x then bisectLeftAux l x (mid + 1) hi
    else bisectLeftAux l x lo mid
  else lo
termination_by hi - lo
decreasing_by
  · omega
  · omega

/-- `bisect.bisect_left(l, x)` with the default `lo = 0`, `hi = len(l)`. -/
def bisectLeft (l : List ℚ) (x : ℚ) : ℕ := bisectLeftAux l x 0 l.length

/-! ### Query pipeline (`Grib._parse_params` and friends)

`GribState` carries the engine fields a query reads: the four variable series,
the optional sentinel `no_data_value`, the `_neglon` flag and the mesh corner
coordinates that `Grib.range` reports. -/

/-- Engine state consulted by queries. -/
structure GribState where
  wu : List Layer
  wv : List Layer
  cu : List Layer
  cv : List Layer
  no_data_value : Option ℚ
  neglon : Bool
  lami : ℚ
  lama : ℚ
  lomi : ℚ
  loma : ℚ

/-- One `lons += (lons < 0) * 2*pi` pass (only applied when the grib has no
negative longitudes); `2` is `2*pi` in pi-units. -/
def normLons (neglon : Bool) (lons : List ℚ) : List ℚ :=
  if neglon then lons
  else lons.map (fun l => if l < 0 then l + 2 else l)

/-- The latitudes of a position array (`N x 2` orientation `(lat, lon)`). -/
def latsOf (positions : List (ℚ × ℚ)) : List ℚ :=
  positions.map Prod.fst

/-- The longitudes of a position array after `_parse_params`' normalization
(the source shifts negative longitudes by `2*pi` twice, lines 406--413). -/
def lonsOf (neglon : Bool) (positions : List (ℚ × ℚ)) : List ℚ :=
  normLons neglon (normLons neglon (positions.map Prod.snd))

/-- `Grib._parse_params`: split positions into latitudes and longitudes,
normalize the longitudes, then look up the temporal bracket with
`bisect.bisect` and compute the blend fraction. -/
def parse_params (neglon : Bool) (positions : List (ℚ × ℚ)) (time : ℚ)
    (layers : List Layer) : Except GribErr (List ℚ × List ℚ × ℕ × ℚ) :=
  if layers.isEmpty then .error .dataError
  else
    let times := layers.map Layer.t
    let lats := latsOf positions
    let lons := lonsOf neglon positions
    let ti := bisectRight times time
    if ti = 0 ∨ ti = times.length then
      .error (.spanError time (times.getD 0 0) (times.getD (times.length - 1) 0))
    else
      let t0 := times.getD (ti - 1) 0
      let t1 := times.getD ti 0
      .ok (lats, lons, ti, (time - t0) / (t1 - t0))

/-- Elementwise spline evaluation, `spline.ev(lats, lons)`. -/
def ev2 (f : ℚ → ℚ → ℚ) (lats lons : List ℚ) : List ℚ :=
  List.zipWith f lats lons

/-- `Grib._time_interpol`: evaluate the two bracketing layers' splines and
blend them as `fraction * v1 + (1 - fraction) * v0`. -/
def time_interpol (layers : List Layer) (index : ℕ) (fraction : ℚ)
    (lats lons : List ℚ) : List ℚ :=
  let v0 := ev2 (layers.getD (index - 1) default).spline lats lons
  let v1 := ev2 (layers.getD index default).spline lats lons
  List.zipWith (fun a b => fraction * b + (1 - fraction) * a) v0 v1

/-- `np.compress(mask, xs)`: the entries of `xs` selected by `mask`. -/
def compress (mask : List Bool) (xs : List ℚ) : List ℚ :=
  ((mask.zip xs).filter (fun p => p.1)).map Prod.snd

/-- `Grib._range_check`: elementwise bounding-box test against the mesh
corners; with no sentinel configured, any out-of-range latitude (then
longitude) raises `GribRangeError` carrying the offending coordinates;
otherwise the boolean out-of-range mask is returned. -/
def range_check (no_data_value : Option ℚ) (lami lama lomi loma : ℚ)
    (lats lons : List ℚ) : Except GribErr (List Bool) :=
  let latout := lats.map (fun l => decide (l < lami) || decide (lama < l))
  let lonout := lons.map (fun l => decide (l < lomi) || decide (loma < l))
  match no_data_value with
  | none =>
    if latout.any id then .error (.rangeError (compress latout lats))
    else if lonout.any id then .error (.rangeError (compress lonout lons))
    else .ok (List.zipWith (fun a b => a || b) latout lonout)
  | some _ => .ok (List.zipWith (fun a b => a || b) latout lonout)

/-- `Grib._apply_range`: with a sentinel configured and some position out of
range, zero the angles and force the speeds to the sentinel at the
out-of-range positions (`angles *= ~out`, `speeds = speeds * ~out + v * out`). -/
def apply_range (no_data_value : Option ℚ) (angles speeds : List ℚ)
    (out_range : List Bool) : List ℚ × List ℚ :=
  match no_data_value with
  | some v =>
    if out_range.any id then
      (List.zipWith (fun a o => a * bq (!o)) angles out_range,
       List.zipWith (fun s o => s * bq (!o) + v * bq o) speeds out_range)
    else (angles, speeds)
  | none => (angles, speeds)

/-- `Grib._get_wind`; `arctan2` and `sqrtQ` stand for the external
`np.arctan2` / `np.sqrt`, and the `+ 1` is the `+ math.pi` of the wind "from"
convention in pi-units. -/
def get_wind (arctan2 : ℚ → ℚ → ℚ) (sqrtQ : ℚ → ℚ) (g : GribState)
    (positions : List (ℚ × ℚ)) (time : ℚ) :
    Except GribErr (List ℚ × List ℚ) := do
  let (lats, lons, ti, tf) ← parse_params g.neglon positions time g.wu
  let out_range ← range_check g.no_data_value g.lami g.lama g.lomi g.loma lats lons
  let u := time_interpol g.wu ti tf lats lons
  let v := time_interpol g.wv ti tf lats lons
  let angles := List.zipWith (fun a b => arctan2 a b + 1) u v
  let speeds := List.zipWith (fun a b => sqrtQ (a * a + b * b)) u v
  pure (apply_range g.no_data_value angles speeds out_range)

/-- `Grib._get_current`: like `_get_wind` with the oceanographic angle
convention (`arctan2` shifted into `[0, 2*pi)`), plus the optional
`filter_nodata` step, which evaluates the nodata-fraction spline of the layer
at index `ti` and blanks positions whose fraction is not below `0.35`
(`35/100`), substituting the sentinel speed when the sentinel is truthy. -/
def get_current (arctan2 : ℚ → ℚ → ℚ) (sqrtQ : ℚ → ℚ) (g : GribState)
    (positions : List (ℚ × ℚ)) (time : ℚ) (filter_nodata : Bool) :
    Except GribErr (List ℚ × List ℚ) := do
  let (lats, lons, ti, tf) ← parse_params g.neglon positions time g.cu
  let out_range ← range_check g.no_data_value g.lami g.lama g.lomi g.loma lats lons
  let u := time_interpol g.cu ti tf lats lons
  let v := time_interpol g.cv ti tf lats lons
  let angles0 := List.zipWith arctan2 u v
  let angles1 := angles0.map (fun a => a + bq (decide (a < 0)) * 2)
  let speeds1 := List.zipWith (fun a b => sqrtQ (a * a + b * b)) u v
  let (angles2, speeds2) :=
    if filter_nodata then
      match (g.cu.getD ti default).nodata with
      | some nd =>
        let have_data := List.zipWith (fun la lo => decide (nd la lo < 35/100)) lats lons
        let angles2 := List.zipWith (fun a h => a * bq h) angles1 have_data
        let speeds2 := List.zipWith (fun s h => s * bq h) speeds1 have_data
        let speeds3 :=
          if truthy g.no_data_value then
            List.zipWith (fun s h => s + bq (!h) * g.no_data_value.getD 0)
              speeds2 have_data
          else speeds2
        (angles2, speeds3)
      | none => (angles1, speeds1)
    else (angles1, speeds1)
  pure (apply_range g.no_data_value angles2 speeds2 out_range)

/-! ### Layer store (`load_from_file_async` insertion, `prune`, `span`) -/

/-- The insert-or-replace step of `Grib.load_from_file_async` (lines
313--319): `bisect.bisect_left` on the existing timestamps, replace on an
exact timestamp match, insert at the returned position otherwise. -/
def insert_or_replace (layers : List Layer) (layer : Layer) : List Layer :=
  let times := layers.map Layer.t
  let i := bisectLeft times layer.t
  if i < times.length ∧ layer.t = times.getD i 0 then
    layers.set i layer
  else
    layers.insertIdx i layer

/-- The per-series loop of `Grib.prune`: delete the front layer while its
timestamp is older than the threshold. -/
def prune_series (threshold : ℚ) : List Layer → List Layer
  | [] => []
  | l :: rest =>
    if l.t < threshold then prune_series threshold rest
    else l :: rest

/-- `Grib.span`: coverage of the wind-u series when non-empty, else of the
current-u series, else "now" with zero duration. -/
def span (now : ℚ) (g : GribState) : ℚ × ℚ :=
  if !g.wu.isEmpty then
    ((g.wu.headD default).t, (g.wu.getLastD default).t - (g.wu.headD default).t)
  else if !g.cu.isEmpty then
    ((g.cu.headD default).t, (g.cu.getLastD default).t - (g.cu.headD default).t)
  else (now, 0)

/-! ### Mesh construction (`Grib._mesh_from_transform`) and band ingestion

Longitudes/latitudes are in pi-units (see the file header), so `math.pi`
is `1`, `2 * math.pi` is `2` and `1.95 * math.pi` is `39/20`.  The engine
default `clip = None` is modelled (no claim touches clipping).  `np.mgrid`
builds the coordinate grids as linear spans between the returned bounds; the
bounds, sizes and flags are what the model returns. -/

/-- Result of `_mesh_from_transform`: mesh bounds and sizes plus the
`_wrap` and `_neglon` flags the method stores on the engine. -/
structure MeshSpec where
  miny : ℚ
  maxy : ℚ
  ysize : ℕ
  minx : ℚ
  maxx : ℚ
  xsize : ℕ
  wrap : Bool
  neglon : Bool

/-- `Grib._mesh_from_transform` (no clip window): half-cell shift, flip of
the negative row step, normalization of the x-span into `[-pi, 2*pi]`, and
wraparound detection (`rangex > 1.95*pi and rangex < 2*pi` adds one column
and sets the wrap flag).  The geo-transform is the gdal 6-tuple
`(minx, xstep, dum1, maxy, dum2, ystep)` already scaled by `from_degs`. -/
def mesh_from_transform (tr : ℚ × ℚ × ℚ × ℚ × ℚ × ℚ) (xsize ysize : ℕ) :
    Except GribErr MeshSpec :=
  let (minx0, xstep, _, maxy0, _, ystep) := tr
  if 0 ≤ ystep then .error .dataError
  else
    let minx := minx0 + (1/2) * xstep
    let maxy := maxy0 + (1/2) * ystep
    let maxx := minx + xstep * ((xsize : ℚ) - 1)
    let miny := maxy + ystep * ((ysize : ℚ) - 1)
    let (minx1, maxx1) :=
      if 2 < maxx then (minx - 2, maxx - 2) else (minx, maxx)
    let (minx2, maxx2) :=
      if minx1 < -1 then (minx1 + 2, maxx1 + 2) else (minx1, maxx1)
    let rangex := maxx2 - minx2
    if 39/20 < rangex ∧ rangex < 2 then
      .ok ⟨miny, maxy, ysize, minx2, minx2 + xstep * ((xsize : ℚ) + 1 - 1),
        xsize + 1, true, decide (minx2 < 0)⟩
    else
      .ok ⟨miny, maxy, ysize, minx2, maxx2, xsize, false, decide (minx2 < 0)⟩

/-- The wraparound band step of `load_from_file_async` (lines 303--305):
when `_wrap` is set, `np.hstack` appends the first column of the band array
at its end. -/
def ingest_band (wrap : Bool) (a : List (List ℚ)) : List (List ℚ) :=
  if wrap then a.map (fun row => row ++ [row.getD 0 0]) else a

/-! ### NoData reconstruction (`Grib._splinefunc_from_array`)

Grids are row-major `List (List ℚ)`, `m` rows of `n` entries.  A cell is a
sentinel ("nodata") cell when its absolute value exceeds `1000`
(`np.fabs(a) > 1000`).  numpy strided slices `x[::2]` / `x[1::2]` become
`evens` / `odds`. -/

/-- Entries of a list at even indices (`x[::2]`). -/
def evens : List α → List α
  | [] => []
  | [x] => [x]
  | x :: _ :: rest => x :: evens rest

/-- Entries of a list at odd indices (`x[1::2]`). -/
def odds (l : List α) : List α := evens l.tail

/-- Cell read of a row-major grid, 0 outside. -/
def cell (a : List (List ℚ)) (i j : ℕ) : ℚ := (a.getD i []).getD j 0

/-- The sentinel test `np.fabs(a) > 1000` at one cell. -/
def isNodata (x : ℚ) : Bool := decide (1000 < |x|)

/-- `nodata.any()`: the grid contains at least one sentinel cell. -/
def has_nodata (a : List (List ℚ)) : Bool :=
  a.any (fun row => row.any isNodata)

/-- The interlace detection of `_splinefunc_from_array`: the grid is
interlaced when the odd (or even) rows, or the odd (or even) columns, are
entirely sentinel (`nodata[1::2,:].all()` etc.; numpy `all` over an empty
selection is true, which `List.all` matches). -/
def interlacedB (a : List (List ℚ)) : Bool :=
  (odds a).all (fun row => row.all isNodata)
  || (evens a).all (fun row => row.all isNodata)
  || a.all (fun row => (odds row).all isNodata)
  || a.all (fun row => (evens row).all isNodata)

/-- `a *= ~nodata`: zero out the sentinel cells. -/
def zero_nodata (a : List (List ℚ)) : List (List ℚ) :=
  a.map (fun row => row.map (fun x => x * bq (!isNodata x)))

/-- The stamp accumulated by the four shifted slice-adds (lines 230--233):
cell `(i, j)` of `stamp` receives the sentinel-zeroed grid `z` at each of the
four diagonal neighbours that lie inside the `m x n` grid. -/
def stampCell (z : List (List ℚ)) (m n i j : ℕ) : ℚ :=
  (if 1 ≤ i ∧ 1 ≤ j then cell z (i - 1) (j - 1) else 0)
  + (if 1 ≤ i ∧ j + 1 < n then cell z (i - 1) (j + 1) else 0)
  + (if i + 1 < m ∧ 1 ≤ j then cell z (i + 1) (j - 1) else 0)
  + (if i + 1 < m ∧ j + 1 < n then cell z (i + 1) (j + 1) else 0)

/-- The anti-aliasing pass (`a += fa * stamp * nodata` with `fa = 0.4`,
after `a *= ~nodata`), written cellwise over the `m x n` index grid; the
nodata mask is taken from the original array. -/
def antialias (a : List (List ℚ)) : List (List ℚ) :=
  let z := zero_nodata a
  let m := a.length
  let n := (a.getD 0 []).length
  (List.range m).map (fun i => (List.range n).map (fun j =>
    cell z i j + (4/10) * stampCell z m n i j * bq (isNodata (cell a i j))))

/-- The grid actually fitted by `_splinefunc_from_array` over the full index
range: unchanged without sentinel cells; sentinel-zeroed when interlaced
(the spline then reads a strided subset); sentinel-zeroed and anti-aliased
otherwise. -/
def reconstruct (a : List (List ℚ)) : List (List ℚ) :=
  if !has_nodata a then a
  else if interlacedB a then zero_nodata a
  else antialias a

/-- A layer with the given timestamp and trivial interpolants, used to
instantiate theorems at concrete inputs. -/
def sampleLayer (t : ℚ) : Layer := ⟨t, none, fun _ _ => 0, none⟩

/-- The `_wrap` flag of a mesh-construction result (false on error). -/
def wrapFlag : Except GribErr MeshSpec → Bool
  | .ok ms => ms.wrap
  | .error _ => false

/-- The four diagonal offsets. -/
def diagOffsets : List (ℤ × ℤ) := [(-1, -1), (-1, 1), (1, -1), (1, 1)]

/-- Sum of a grid's values over the diagonal neighbours of `(i, j)` that
exist inside an `m x n` grid. -/
def diagSum (z : List (List ℚ)) (m n i j : ℕ) : ℚ :=
  (diagOffsets.map (fun d =>
    if 0 ≤ (i : ℤ) + d.1 ∧ (i : ℤ) + d.1 < (m : ℤ) ∧
       0 ≤ (j : ℤ) + d.2 ∧ (j : ℤ) + d.2 < (n : ℤ)
    then cell z ((i : ℤ) + d.1).toNat ((j : ℤ) + d.2).toNat
    else 0)).sum

/-- Engine state for exercising the nodata filter: two current layers at
times 0 and 100; the earlier layer's nodata-fraction interpolant is
constantly 0, the later layer's is constantly 1.  No sentinel, generous
bounds, negative-longitude convention. -/
def nodataCexState : GribState :=
  ⟨[], [],
   [⟨0, none, fun _ _ => 0, some (fun _ _ => 0)⟩,
    ⟨100, none, fun _ _ => 0, some (fun _ _ => 1)⟩],
   [⟨0, none, fun _ _ => 0, none⟩, ⟨100, none, fun _ _ => 0, none⟩],
   none, true, -1, 1, -1, 1⟩

/-! ### Theorems -/

/-- In a `(· ≤ ·)`-sorted list, `getD` is monotone on in-range indices. -/
theorem sorted_getD_mono {l : List ℚ} (hs : List.Pairwise (fun a b => a ≤ b) l)
    {i j : ℕ} (hij : i ≤ j) (hj : j < l.length) :
    l.getD i 0 ≤ l.getD j 0 := by
  rcases Nat.lt_or_ge i j with h | h
  · rw [List.getD_eq_getElem _ _ (Nat.lt_of_lt_of_le (Nat.lt_of_lt_of_le h (Nat.le_of_lt hj)) (Nat.le_refl _)),
      List.getD_eq_getElem _ _ hj]
    exact List.pairwise_iff_getElem.mp hs i j _ hj h
  · have : i = j := Nat.le_antisymm hij h
    subst this
    exact le_refl _

/-- Binary-search invariant for `bisectRightAux` on a sorted list: everything
below the returned index is `≤ x`, everything at or above it is `> x`. -/
theorem bisectRightAux_spec (l : List ℚ) (x : ℚ)
    (hs : List.Pairwise (fun a b => a ≤ b) l) :
    ∀ n lo hi, hi - lo = n → lo ≤ hi → hi ≤ l.length →
    (∀ i, i < lo → l.getD i 0 ≤ x) →
    (∀ i, hi ≤ i → i < l.length → x < l.getD i 0) →
    lo ≤ bisectRightAux l x lo hi ∧ bisectRightAux l x lo hi ≤ hi ∧
    (∀ i, i < bisectRightAux l x lo hi → l.getD i 0 ≤ x) ∧
    (∀ i, bisectRightAux l x lo hi ≤ i → i < l.length → x < l.getD i 0) := by
  intro n
  induction n using Nat.strong_induction_on with
  | _ n ih =>
    intro lo hi hn hlohi hhil hlow hhigh
    rw [bisectRightAux]
    by_cases hlt : lo < hi
    · simp only [hlt, dif_pos]
      set mid := (lo + hi) / 2 with hmid
      have hmlo : lo ≤ mid := by omega
      have hmhi : mid < hi := by omega
      by_cases hx : x < l.getD mid 0
      · simp only [hx, if_pos]
        have hrec := ih (mid - lo) (by omega) lo mid rfl hmlo
          (Nat.le_trans (Nat.le_of_lt hmhi) hhil) hlow
          (fun i hmi hil => lt_of_lt_of_le hx
            (sorted_getD_mono hs hmi hil))
        exact ⟨hrec.1, Nat.le_trans hrec.2.1 (Nat.le_of_lt hmhi), hrec.2.2⟩
      · simp only [hx, if_neg, not_false_iff]
        have hmx : l.getD mid 0 ≤ x := le_of_not_lt hx
        have hrec := ih (hi - (mid + 1)) (by omega) (mid + 1) hi rfl (by omega) hhil
          (fun i hi1 => le_trans
            (sorted_getD_mono hs (by omega : i ≤ mid)
              (Nat.lt_of_lt_of_le hmhi hhil)) hmx)
          hhigh
        exact ⟨Nat.le_trans (by omega) hrec.1, hrec.2.1, hrec.2.2⟩
    · simp only [hlt, dif_neg, not_false_iff]
      have : lo = hi := by omega
      subst this
      exact ⟨Nat.le_refl _, Nat.le_refl _, hlow, hhigh⟩

/-- `bisect.bisect` on a sorted list: everything strictly below the returned
insertion point is `≤ x`, everything at or above it is `> x`. -/
theorem bisectRight_spec (l : List ℚ) (x : ℚ)
    (hs : List.Pairwise (fun a b => a ≤ b) l) :
    bisectRight l x ≤ l.length ∧
    (∀ i, i < bisectRight l x → l.getD i 0 ≤ x) ∧
    (∀ i, bisectRight l x ≤ i → i < l.length → x < l.getD i 0) := by
  have h := bisectRightAux_spec l x hs (l.length - 0) 0 l.length rfl
    (Nat.zero_le _) (Nat.le_refl _)
    (fun i hi => absurd hi (Nat.not_lt_zero i))
    (fun i hi hil => absurd hil (Nat.not_lt.mpr hi))
  exact ⟨h.2.1, h.2.2.1, h.2.2.2⟩

/-- Binary-search invariant for `bisectLeftAux` on a sorted list. -/
theorem bisectLeftAux_spec (l : List ℚ) (x : ℚ)
    (hs : List.Pairwise (fun a b => a ≤ b) l) :
    ∀ n lo hi, hi - lo = n → lo ≤ hi → hi ≤ l.length →
    (∀ i, i < lo → l.getD i 0 < x) →
    (∀ i, hi ≤ i → i < l.length → x ≤ l.getD i 0) →
    lo ≤ bisectLeftAux l x lo hi ∧ bisectLeftAux l x lo hi ≤ hi ∧
    (∀ i, i < bisectLeftAux l x lo hi → l.getD i 0 < x) ∧
    (∀ i, bisectLeftAux l x lo hi ≤ i → i < l.length → x ≤ l.getD i 0) := by
  intro n
  induction n using Nat.strong_induction_on with
  | _ n ih =>
    intro lo hi hn hlohi hhil hlow hhigh
    rw [bisectLeftAux]
    by_cases hlt : lo < hi
    · simp only [hlt, dif_pos]
      set mid := (lo + hi) / 2 with hmid
      have hmlo : lo ≤ mid := by omega
      have hmhi : mid < hi := by omega
      by_cases hx : l.getD mid 0 < x
      · simp only [hx, if_pos]
        have hrec := ih (hi - (mid + 1)) (by omega) (mid + 1) hi rfl (by omega) hhil
          (fun i hi1 => lt_of_le_of_lt
            (sorted_getD_mono hs (by omega : i ≤ mid)
              (Nat.lt_of_lt_of_le hmhi hhil)) hx)
          hhigh
        exact ⟨Nat.le_trans (by omega) hrec.1, hrec.2.1, hrec.2.2⟩
      · simp only [hx, if_neg, not_false_iff]
        have hmx : x ≤ l.getD mid 0 := le_of_not_lt hx
        have hrec := ih (mid - lo) (by omega) lo mid rfl hmlo
          (Nat.le_trans (Nat.le_of_lt hmhi) hhil) hlow
          (fun i hmi hil => le_trans hmx (sorted_getD_mono hs hmi hil))
        exact ⟨hrec.1, Nat.le_trans hrec.2.1 (Nat.le_of_lt hmhi), hrec.2.2⟩
    · simp only [hlt, dif_neg, not_false_iff]
      have : lo = hi := by omega
      subst this
      exact ⟨Nat.le_refl _, Nat.le_refl _, hlow, hhigh⟩

/-- `bisect.bisect_left` on a sorted list: everything strictly below the
returned insertion point is `< x`, everything at or above it is `≥ x`. -/
theorem bisectLeft_spec (l : List ℚ) (x : ℚ)
    (hs : List.Pairwise (fun a b => a ≤ b) l) :
    bisectLeft l x ≤ l.length ∧
    (∀ i, i < bisectLeft l x → l.getD i 0 < x) ∧
    (∀ i, bisectLeft l x ≤ i → i < l.length → x ≤ l.getD i 0) := by
  have h := bisectLeftAux_spec l x hs (l.length - 0) 0 l.length rfl
    (Nat.zero_le _) (Nat.le_refl _)
    (fun i hi => absurd hi (Nat.not_lt_zero i))
    (fun i hi hil => absurd hil (Nat.not_lt.mpr hi))
  exact ⟨h.2.1, h.2.2.1, h.2.2.2⟩

/-- On a sorted list, `bisect.bisect` of a value bracketed between consecutive
entries `l[j] ≤ x < l[j+1]` returns `j + 1`. -/
theorem bisectRight_eq_succ {l : List ℚ} {x : ℚ}
    (hs : List.Pairwise (fun a b => a ≤ b) l) {j : ℕ}
    (hj1 : j + 1 < l.length) (hle : l.getD j 0 ≤ x) (hlt : x < l.getD (j + 1) 0) :
    bisectRight l x = j + 1 := by
  obtain ⟨hlen, hlow, hhigh⟩ := bisectRight_spec l x hs
  by_cases hgt : j + 1 < bisectRight l x
  · exact absurd (hlow (j + 1) hgt) (not_le.mpr hlt)
  · by_cases hlt2 : bisectRight l x ≤ j
    · exact absurd (hhigh j hlt2 (by omega)) (not_lt.mpr hle)
    · omega

/-! ### Helper lemmas -/

/-- Reading the timestamp list at an in-range index. -/
theorem times_getD {layers : List Layer} {j : ℕ} (hj : j < layers.length) :
    (layers.map Layer.t).getD j 0 = (layers.getD j default).t := by
  rw [List.getD_eq_getElem (layers.map Layer.t) 0 (by simpa using hj),
    List.getD_eq_getElem layers default hj, List.getElem_map]

/-- Reading a `zipWith` at an in-range index. -/
theorem zipWith_getD {α β γ : Type} {f : α → β → γ} {xs : List α} {ys : List β}
    {k : ℕ} (d : γ) (dx : α) (dy : β)
    (hx : k < xs.length) (hy : k < ys.length) :
    (List.zipWith f xs ys).getD k d = f (xs.getD k dx) (ys.getD k dy) := by
  rw [List.getD_eq_getElem _ _ (by simp [Nat.lt_min]; exact ⟨hx, hy⟩),
    List.getD_eq_getElem _ _ hx, List.getD_eq_getElem _ _ hy,
    List.getElem_zipWith]

/-- `_apply_range` is the identity when every mask entry is false. -/
theorem apply_range_id {ndv : Option ℚ} {angles speeds : List ℚ}
    {mask : List Bool} (h : ∀ b ∈ mask, b = false) :
    apply_range ndv angles speeds mask = (angles, speeds) := by
  have hany : mask.any id = false := by
    simp only [List.any_eq_false]
    intro b hb
    simp [h b hb]
  unfold apply_range
  match ndv with
  | none => rfl
  | some v => simp [hany]

/-- The prune loop is `dropWhile` on the strictly-older test. -/
theorem prune_eq_dropWhile (threshold : ℚ) (layers : List Layer) :
    prune_series threshold layers =
      layers.dropWhile (fun l => decide (l.t < threshold)) := by
  induction layers with
  | nil => rfl
  | cons x rest ih =>
    rw [prune_series, List.dropWhile_cons]
    by_cases hx : x.t < threshold
    · simp [hx, ih]
    · simp [hx]

/-- `dropWhile` is idempotent. -/
theorem dropWhile_idem {α : Type} (p : α → Bool) (l : List α) :
    (l.dropWhile p).dropWhile p = l.dropWhile p := by
  induction l with
  | nil => rfl
  | cons x rest ih =>
    rw [List.dropWhile_cons]
    by_cases hx : p x
    · simp [hx, ih]
    · simp [List.dropWhile_cons, hx]

/-! ### Claim theorems -/

/-- C10: the public `span` reports the wind-u series' coverage (first
timestamp and duration to the last) whenever wind-u is non-empty — for every
value of the current series, which it ignores — falls back to the current-u
series' coverage when wind-u is empty, and returns the current time with a
zero duration when both are empty. -/
theorem span_wind_priority (now : ℚ) (wu wv cu cv : List Layer)
    (ndv : Option ℚ) (neglon : Bool) (lami lama lomi loma : ℚ) :
    (wu ≠ [] →
      span now ⟨wu, wv, cu, cv, ndv, neglon, lami, lama, lomi, loma⟩ =
        ((wu.headD default).t, (wu.getLastD default).t - (wu.headD default).t))
    ∧ (wu = [] → cu ≠ [] →
      span now ⟨wu, wv, cu, cv, ndv, neglon, lami, lama, lomi, loma⟩ =
        ((cu.headD default).t, (cu.getLastD default).t - (cu.headD default).t))
    ∧ (wu = [] → cu = [] →
      span now ⟨wu, wv, cu, cv, ndv, neglon, lami, lama, lomi, loma⟩ = (now, 0)) := by
  refine ⟨fun hwu => ?_, fun hwu hcu => ?_, fun hwu hcu => ?_⟩
  · simp [span, List.isEmpty_iff, hwu]
  · simp [span, List.isEmpty_iff, hwu, hcu]
  · simp [span, hwu, hcu]

/-- Witness for C10 at a concrete engine state. -/
theorem span_wind_priority_witness :
    span 7 ⟨[sampleLayer 1, sampleLayer 10], [], [sampleLayer 3], [],
        none, false, 0, 0, 0, 0⟩ = (1, 9) := by
  have h := (span_wind_priority 7 [sampleLayer 1, sampleLayer 10] []
    [sampleLayer 3] [] none false 0 0 0 0).1 (List.cons_ne_nil _ _)
  simp only [sampleLayer, List.headD_cons, List.getLastD_cons, List.getLastD_nil] at h ⊢
  rw [h]
  norm_num

/-- C9: on a series with ascending timestamps, pruning removes exactly the
prefix of layers strictly older than the threshold, leaves the remaining
layers unchanged (they all have timestamps at or after the threshold), and
is idempotent. -/
theorem prune_spec (threshold : ℚ) (layers : List Layer)
    (hs : List.Pairwise (fun a b => a ≤ b) (layers.map Layer.t)) :
    layers.takeWhile (fun l => decide (l.t < threshold)) ++
        prune_series threshold layers = layers
    ∧ (∀ l ∈ layers.takeWhile (fun l => decide (l.t < threshold)), l.t < threshold)
    ∧ (∀ l ∈ prune_series threshold layers, threshold ≤ l.t)
    ∧ prune_series threshold (prune_series threshold layers) =
        prune_series threshold layers := by
  rw [List.pairwise_map] at hs
  refine ⟨?_, ?_, ?_, ?_⟩
  · rw [prune_eq_dropWhile]
    exact List.takeWhile_append_dropWhile _ _
  · intro l hl
    have := List.mem_takeWhile_imp hl
    simpa using this
  · induction layers with
    | nil => intro l hl; simp [prune_series] at hl
    | cons x rest ih =>
      rw [prune_series]
      by_cases hx : x.t < threshold
      · simp only [hx, if_pos]
        exact ih (List.Pairwise.sublist (List.sublist_cons_self x rest) hs)
      · simp only [hx, if_neg, not_false_iff]
        intro l hl
        rcases List.mem_cons.mp hl with hlx | hlr
        · subst hlx; exact le_of_not_lt hx
        · exact le_trans (le_of_not_lt hx) ((List.pairwise_cons.mp hs).1 l hlr)
  · simp only [prune_eq_dropWhile]
    exact dropWhile_idem _ _

/-- Witness for C9 at a concrete series. -/
theorem prune_spec_witness :
    [sampleLayer 1, sampleLayer 8].takeWhile (fun l => decide (l.t < 5)) ++
        prune_series 5 [sampleLayer 1, sampleLayer 8] = [sampleLayer 1, sampleLayer 8]
    ∧ (∀ l ∈ [sampleLayer 1, sampleLayer 8].takeWhile (fun l => decide (l.t < 5)),
        l.t < 5)
    ∧ (∀ l ∈ prune_series 5 [sampleLayer 1, sampleLayer 8], 5 ≤ l.t)
    ∧ prune_series 5 (prune_series 5 [sampleLayer 1, sampleLayer 8]) =
        prune_series 5 [sampleLayer 1, sampleLayer 8] := by
  exact prune_spec 5 [sampleLayer 1, sampleLayer 8] (by decide)

/-- C3 (amended): a wind or current query against an engine whose relevant
variable series is empty fails with a `GribDataError` (`'No data in grib'`),
not a `GribSpanError`. -/
theorem empty_series_raises_data_error (arctan2 : ℚ → ℚ → ℚ) (sqrtQ : ℚ → ℚ)
    (g : GribState) (positions : List (ℚ × ℚ)) (time : ℚ) (fn : Bool) :
    (g.wu = [] → get_wind arctan2 sqrtQ g positions time = .error .dataError)
    ∧ (g.cu = [] → get_current arctan2 sqrtQ g positions time fn = .error .dataError) := by
  constructor
  · intro hwu
    simp [get_wind, parse_params, hwu, Bind.bind, Except.bind]
  · intro hcu
    simp [get_current, parse_params, hcu, Bind.bind, Except.bind]

/-- C3 counterexample: on an engine with no data at all, a wind query fails
with `GribDataError`, which is not a `GribSpanError` — refuting the claim
that an empty series produces a SpanError. -/
theorem empty_series_spanerror_cex :
    get_wind (fun _ _ => 0) (fun _ => 0)
        ⟨[], [], [], [], none, false, 0, 0, 0, 0⟩ [] 0 = .error .dataError
    ∧ raisesSpan (get_wind (fun _ _ => 0) (fun _ => 0)
        ⟨[], [], [], [], none, false, 0, 0, 0, 0⟩ [] 0) = false := by
  constructor <;> rfl

/-- Witness for C3's amended theorem at a concrete engine state. -/
theorem empty_series_raises_data_error_witness :
    get_current (fun _ _ => 0) (fun _ => 0)
        ⟨[sampleLayer 0], [], [], [], none, false, 0, 0, 0, 0⟩ [(1, 1)] 2 false =
      .error .dataError := by
  exact (empty_series_raises_data_error (fun _ _ => 0) (fun _ => 0)
    ⟨[sampleLayer 0], [], [], [], none, false, 0, 0, 0, 0⟩ [(1, 1)] 2 false).2 rfl

/-- `_parse_params` on a sorted series with a bracketed query time
`times[j] ≤ t < times[j+1]` succeeds with index `j + 1` and the linear blend
fraction. -/
theorem parse_params_ok (neglon : Bool) (positions : List (ℚ × ℚ)) (t : ℚ)
    (layers : List Layer)
    (hs : List.Pairwise (fun a b => a ≤ b) (layers.map Layer.t))
    {j : ℕ} (hj1 : j + 1 < layers.length)
    (hle : (layers.map Layer.t).getD j 0 ≤ t)
    (hlt : t < (layers.map Layer.t).getD (j + 1) 0) :
    parse_params neglon positions t layers =
      .ok (latsOf positions, lonsOf neglon positions, j + 1,
        (t - (layers.map Layer.t).getD j 0) /
          ((layers.map Layer.t).getD (j + 1) 0 - (layers.map Layer.t).getD j 0)) := by
  have hlen : (layers.map Layer.t).length = layers.length := List.length_map _ _
  have hne : layers.isEmpty = false := by
    cases layers
    · simp at hj1
    · rfl
  have hti : bisectRight (layers.map Layer.t) t = j + 1 :=
    bisectRight_eq_succ hs (by omega) hle hlt
  have hcond : ¬(bisectRight (layers.map Layer.t) t = 0 ∨
      bisectRight (layers.map Layer.t) t = (layers.map Layer.t).length) := by
    rw [hti]
    omega
  rw [hti] at hcond
  simp only [parse_params, hne, Bool.false_eq_true, if_false, hti, Nat.add_sub_cancel]
  rw [if_neg hcond]

/-- Blending with fraction zero returns the earlier layer's values. -/
theorem zipWith_blend_zero : ∀ (v0 v1 : List ℚ), v0.length = v1.length →
    List.zipWith (fun a b => (0 : ℚ) * b + (1 - 0) * a) v0 v1 = v0
  | [], [], _ => rfl
  | [], _ :: _, h => by simp at h
  | _ :: _, [], h => by simp at h
  | a :: v0, b :: v1, h => by
    simp only [List.zipWith_cons_cons, List.cons.injEq]
    constructor
    · ring
    · exact zipWith_blend_zero v0 v1 (by simpa using h)

/-- C1: on a non-empty series with strictly ascending timestamps, the
temporal lookup raises `GribSpanError` exactly when the query time is
strictly before the first timestamp or at/after the last; a query at an
intermediate timestamp `times[j]` (with a later layer available) succeeds
with blend fraction 0, and the blended result is layer `j`'s spatially
evaluated values. -/
theorem span_error_iff_outside (neglon : Bool) (positions : List (ℚ × ℚ))
    (t : ℚ) (layers : List Layer) (hne : layers ≠ [])
    (hs : List.Pairwise (fun a b => a < b) (layers.map Layer.t)) :
    (raisesSpan (parse_params neglon positions t layers) = true ↔
      (t < (layers.map Layer.t).getD 0 0 ∨
        (layers.map Layer.t).getD (layers.length - 1) 0 ≤ t))
    ∧ (∀ j, j + 1 < layers.length → t = (layers.map Layer.t).getD j 0 →
        parse_params neglon positions t layers =
          .ok (latsOf positions, lonsOf neglon positions, j + 1, 0) ∧
        time_interpol layers (j + 1) 0 (latsOf positions) (lonsOf neglon positions) =
          ev2 (layers.getD j default).spline (latsOf positions)
            (lonsOf neglon positions)) := by
  have hsle : List.Pairwise (fun a b => a ≤ b) (layers.map Layer.t) :=
    hs.imp (fun h => le_of_lt h)
  have hlen : (layers.map Layer.t).length = layers.length := List.length_map _ _
  have hlpos : 0 < layers.length := List.length_pos.mpr hne
  have hne' : layers.isEmpty = false := by
    cases layers
    · exact absurd rfl hne
    · rfl
  obtain ⟨hble, hblow, hbhigh⟩ := bisectRight_spec (layers.map Layer.t) t hsle
  constructor
  · by_cases hc : bisectRight (layers.map Layer.t) t = 0 ∨
        bisectRight (layers.map Layer.t) t = (layers.map Layer.t).length
    · have hp : raisesSpan (parse_params neglon positions t layers) = true := by
        simp only [parse_params, hne', Bool.false_eq_true, if_false, hc, if_pos]
        rfl
      rw [hp]
      simp only [true_iff]
      rcases hc with hc | hc
      · left
        exact hbhigh 0 (by omega) (by omega)
      · right
        exact hblow (layers.length - 1) (by omega)
    · have hp : raisesSpan (parse_params neglon positions t layers) = false := by
        simp only [parse_params, hne', Bool.false_eq_true, if_false, hc, if_neg,
          not_false_iff]
        rfl
      rw [hp]
      constructor
      · intro hfalse
        exact absurd hfalse (by simp)
      · intro hout
        exfalso
        rcases hout with hout | hout
        · refine hc (Or.inl ?_)
          by_contra hr0
          exact absurd (hblow 0 (by omega)) (not_le.mpr hout)
        · refine hc (Or.inr ?_)
          by_contra hrl
          exact absurd (hbhigh (layers.length - 1) (by omega) (by omega))
            (not_lt.mpr hout)
  · intro j hj1 ht
    have hle : (layers.map Layer.t).getD j 0 ≤ t := le_of_eq ht.symm
    have hlt : t < (layers.map Layer.t).getD (j + 1) 0 := by
      rw [ht]
      rw [List.getD_eq_getElem _ _ (by omega), List.getD_eq_getElem _ _ (by omega)]
      exact List.pairwise_iff_getElem.mp hs j (j + 1) (by omega) (by omega)
        (Nat.lt_succ_self j)
    have hok := parse_params_ok neglon positions t layers hsle hj1 hle hlt
    rw [ht] at hok ⊢
    constructor
    · rw [hok]
      congr 3
      rw [sub_self, zero_div]
    · show time_interpol layers (j + 1) 0 _ _ = _
      unfold time_interpol
      simp only [Nat.add_sub_cancel]
      exact zipWith_blend_zero _ _ (by simp [ev2])

/-- Witness for C1: three layers at times 0, 10, 20; a query at 25 is out of
span, a query at the intermediate timestamp 10 returns layer 1's values. -/
theorem span_error_iff_outside_witness :
    (raisesSpan (parse_params false [((2 : ℚ), (3 : ℚ))] 25
        [sampleLayer 0, sampleLayer 10, sampleLayer 20]) = true ↔
      ((25 : ℚ) < ([sampleLayer 0, sampleLayer 10, sampleLayer 20].map Layer.t).getD 0 0 ∨
        ([sampleLayer 0, sampleLayer 10, sampleLayer 20].map Layer.t).getD 2 0 ≤ 25))
    ∧ ((25 : ℚ) = ([sampleLayer 0, sampleLayer 10, sampleLayer 20].map Layer.t).getD 1 0 →
        False) := by
  constructor
  · exact (span_error_iff_outside false [((2 : ℚ), (3 : ℚ))] 25
      [sampleLayer 0, sampleLayer 10, sampleLayer 20]
      (List.cons_ne_nil _ _) (by decide)).1
  · intro h
    simp [sampleLayer] at h

/-- C2: for bracketing layers `j`, `j+1` with timestamps `t0 < t1` and a
query time `t0 ≤ t < t1`, the lookup yields the fraction
`f = (t - t0) / (t1 - t0)` and every blended component equals
`f * value_later + (1 - f) * value_earlier`; at the exact midpoint the
fraction is `1/2` and the result is the average of the two layer values. -/
theorem time_blend_linear (neglon : Bool) (positions : List (ℚ × ℚ)) (t : ℚ)
    (layers : List Layer)
    (hs : List.Pairwise (fun a b => a ≤ b) (layers.map Layer.t))
    {j : ℕ} (hj1 : j + 1 < layers.length)
    (t0 t1 f : ℚ)
    (ht0 : t0 = (layers.map Layer.t).getD j 0)
    (ht1 : t1 = (layers.map Layer.t).getD (j + 1) 0)
    (hf : f = (t - t0) / (t1 - t0))
    (hle : t0 ≤ t) (hlt : t < t1) :
    parse_params neglon positions t layers =
      .ok (latsOf positions, lonsOf neglon positions, j + 1, f)
    ∧ (∀ (series : List Layer) (k : ℕ), k < (latsOf positions).length →
        k < (lonsOf neglon positions).length →
        (time_interpol series (j + 1) f (latsOf positions)
            (lonsOf neglon positions)).getD k 0 =
          f * (series.getD (j + 1) default).spline ((latsOf positions).getD k 0)
              ((lonsOf neglon positions).getD k 0)
          + (1 - f) * (series.getD j default).spline ((latsOf positions).getD k 0)
              ((lonsOf neglon positions).getD k 0))
    ∧ (t = t0 + (t1 - t0) / 2 →
        f = 1 / 2 ∧
        ∀ (series : List Layer) (k : ℕ), k < (latsOf positions).length →
          k < (lonsOf neglon positions).length →
          (time_interpol series (j + 1) f (latsOf positions)
              (lonsOf neglon positions)).getD k 0 =
            ((series.getD j default).spline ((latsOf positions).getD k 0)
                ((lonsOf neglon positions).getD k 0)
              + (series.getD (j + 1) default).spline ((latsOf positions).getD k 0)
                ((lonsOf neglon positions).getD k 0)) / 2) := by
  have h01 : t0 < t1 := lt_of_le_of_lt hle hlt
  have hmain : ∀ (series : List Layer) (k : ℕ), k < (latsOf positions).length →
      k < (lonsOf neglon positions).length →
      (time_interpol series (j + 1) f (latsOf positions)
          (lonsOf neglon positions)).getD k 0 =
        f * (series.getD (j + 1) default).spline ((latsOf positions).getD k 0)
            ((lonsOf neglon positions).getD k 0)
        + (1 - f) * (series.getD j default).spline ((latsOf positions).getD k 0)
            ((lonsOf neglon positions).getD k 0) := by
    intro series k hk1 hk2
    unfold time_interpol ev2
    simp only [Nat.add_sub_cancel]
    rw [zipWith_getD 0 0 0
      (by rw [List.length_zipWith]; omega) (by rw [List.length_zipWith]; omega),
      zipWith_getD 0 0 0 hk1 hk2, zipWith_getD 0 0 0 hk1 hk2]
  refine ⟨?_, hmain, ?_⟩
  · rw [hf, ht0, ht1]
    exact parse_params_ok neglon positions t layers hs hj1 (ht0 ▸ hle) (ht1 ▸ hlt)
  · intro hmid
    have hf12 : f = 1 / 2 := by
      rw [hf, hmid]
      have hne : t1 - t0 ≠ 0 := sub_ne_zero.mpr (ne_of_gt h01)
      field_simp
      ring
    refine ⟨hf12, ?_⟩
    intro series k hk1 hk2
    rw [hmain series k hk1 hk2, hf12]
    ring

/-- Witness for C2: two layers at times 0 and 10, query at the midpoint 5
gives blend fraction 1/2. -/
theorem time_blend_linear_witness :
    parse_params false [((1 : ℚ), (2 : ℚ))] 5 [sampleLayer 0, sampleLayer 10] =
      .ok (latsOf [((1 : ℚ), (2 : ℚ))], lonsOf false [((1 : ℚ), (2 : ℚ))], 1, 1/2) := by
  have h := (time_blend_linear false [((1 : ℚ), (2 : ℚ))] 5
    [sampleLayer 0, sampleLayer 10] (by decide) (j := 0) (by decide)
    0 10 (1/2) (by decide) (by decide) (by norm_num) (by decide) (by decide)).1
  exact h

/-- `np.compress` of a predicate mask is `filter`. -/
theorem compress_map (p : ℚ → Bool) (xs : List ℚ) :
    compress (xs.map p) xs = xs.filter p := by
  induction xs with
  | nil => rfl
  | cons x xs ih =>
    simp only [compress, List.map_cons, List.zip_cons_cons, List.filter_cons]
    by_cases hx : p x
    · simp only [hx, if_pos]
      simp only [compress] at ih
      simp [ih, hx]
    · simp only [compress] at ih
      simp [ih, hx]

/-- Reading a `map` at an in-range index. -/
theorem map_getD {α β : Type} {f : α → β} {xs : List α} {k : ℕ} (d : β) (dx : α)
    (hk : k < xs.length) :
    (xs.map f).getD k d = f (xs.getD k dx) := by
  rw [List.getD_eq_getElem _ _ (by simpa using hk), List.getD_eq_getElem _ _ hk,
    List.getElem_map]

/-- A list with a true entry at an in-range index has a true `any id`. -/
theorem any_id_of_getD {mask : List Bool} {k : ℕ} (hk : k < mask.length)
    (h : mask.getD k false = true) : mask.any id = true := by
  rw [List.getD_eq_getElem _ _ hk] at h
  exact List.any_eq_true.mpr ⟨mask[k], List.getElem_mem hk, h⟩

/-- C6: with at least one query position outside the mesh bounding box, the
range guard raises `GribRangeError` carrying (only) offending coordinates
when no sentinel is configured; with a sentinel `v` it returns the
out-of-range mask, and applying it zeroes the angle and forces the speed to
`v` exactly at the out-of-range positions, passing in-range positions
through unchanged. -/
theorem range_guard_policy (ndv : Option ℚ) (lami lama lomi loma : ℚ)
    (lats lons angles speeds : List ℚ)
    (hlon : lons.length = lats.length)
    (hang : angles.length = lats.length)
    (hspd : speeds.length = lats.length)
    (hout : ∃ k, k < lats.length ∧
      (lats.getD k 0 < lami ∨ lama < lats.getD k 0 ∨
       lons.getD k 0 < lomi ∨ loma < lons.getD k 0)) :
    (ndv = none → ∃ off, range_check none lami lama lomi loma lats lons =
        .error (.rangeError off) ∧ off ≠ [] ∧
        (∀ x ∈ off, x < lami ∨ lama < x ∨ x < lomi ∨ loma < x))
    ∧ (∀ v, ndv = some v → ∃ mask,
        range_check ndv lami lama lomi loma lats lons = .ok mask ∧
        ∀ k, k < lats.length →
          ((mask.getD k false = true ↔
            (lats.getD k 0 < lami ∨ lama < lats.getD k 0 ∨
             lons.getD k 0 < lomi ∨ loma < lons.getD k 0))
          ∧ (mask.getD k false = true →
            (apply_range ndv angles speeds mask).1.getD k 0 = 0 ∧
            (apply_range ndv angles speeds mask).2.getD k 0 = v)
          ∧ (mask.getD k false = false →
            (apply_range ndv angles speeds mask).1.getD k 0 = angles.getD k 0 ∧
            (apply_range ndv angles speeds mask).2.getD k 0 = speeds.getD k 0))) := by
  obtain ⟨k0, hk0, hk0out⟩ := hout
  constructor
  · intro hnone
    by_cases hlat : (lats.map (fun l => decide (l < lami) || decide (lama < l))).any id
    · refine ⟨lats.filter (fun l => decide (l < lami) || decide (lama < l)), ?_, ?_, ?_⟩
      · simp only [range_check, hlat, if_pos, compress_map]
      · rcases List.any_eq_true.mp hlat with ⟨b, hb, hbt⟩
        rcases List.mem_map.mp hb with ⟨x, hx, hxb⟩
        refine List.ne_nil_of_mem (List.mem_filter.mpr ⟨hx, ?_⟩)
        rw [hxb]
        exact hbt
      · intro x hx
        have := (List.mem_filter.mp hx).2
        simp only [Bool.or_eq_true, decide_eq_true_eq] at this
        tauto
    · have hlatk : ¬(lats.getD k0 0 < lami ∨ lama < lats.getD k0 0) := by
        intro hcase
        apply hlat
        refine any_id_of_getD (k := k0) (by rw [List.length_map]; exact hk0) ?_
        rw [map_getD false 0 hk0]
        simpa using hcase
      have hlonk : lons.getD k0 0 < lomi ∨ loma < lons.getD k0 0 := by
        rcases hk0out with h | h | h | h
        · exact absurd (Or.inl h) hlatk
        · exact absurd (Or.inr h) hlatk
        · exact Or.inl h
        · exact Or.inr h
      have hlon0 : (lons.map (fun l => decide (l < lomi) || decide (loma < l))).any id := by
        refine any_id_of_getD (k := k0) (by rw [List.length_map]; omega) ?_
        rw [map_getD false 0 (by omega : k0 < lons.length)]
        simpa using hlonk
      refine ⟨lons.filter (fun l => decide (l < lomi) || decide (loma < l)), ?_, ?_, ?_⟩
      · simp only [range_check, hlat, Bool.false_eq_true, if_false, hlon0, if_pos,
          compress_map]
      · rcases List.any_eq_true.mp hlon0 with ⟨b, hb, hbt⟩
        rcases List.mem_map.mp hb with ⟨x, hx, hxb⟩
        refine List.ne_nil_of_mem (List.mem_filter.mpr ⟨hx, ?_⟩)
        rw [hxb]
        exact hbt
      · intro x hx
        have := (List.mem_filter.mp hx).2
        simp only [Bool.or_eq_true, decide_eq_true_eq] at this
        tauto
  · intro v hv
    subst hv
    refine ⟨List.zipWith (fun a b => a || b)
      (lats.map (fun l => decide (l < lami) || decide (lama < l)))
      (lons.map (fun l => decide (l < lomi) || decide (loma < l))), rfl, ?_⟩
    intro k hk
    have hmlen : (List.zipWith (fun a b : Bool => a || b)
        (lats.map (fun l => decide (l < lami) || decide (lama < l)))
        (lons.map (fun l => decide (l < lomi) || decide (loma < l)))).length =
        lats.length := by
      rw [List.length_zipWith, List.length_map, List.length_map, hlon, Nat.min_self]
    have hmk : (List.zipWith (fun a b : Bool => a || b)
        (lats.map (fun l => decide (l < lami) || decide (lama < l)))
        (lons.map (fun l => decide (l < lomi) || decide (loma < l)))).getD k false =
        ((decide (lats.getD k 0 < lami) || decide (lama < lats.getD k 0)) ||
         (decide (lons.getD k 0 < lomi) || decide (loma < lons.getD k 0))) := by
      rw [zipWith_getD false false false (by rw [List.length_map]; omega)
        (by rw [List.length_map]; omega), map_getD false 0 hk,
        map_getD false 0 (by omega)]
    have hiff : ((List.zipWith (fun a b : Bool => a || b)
        (lats.map (fun l => decide (l < lami) || decide (lama < l)))
        (lons.map (fun l => decide (l < lomi) || decide (loma < l)))).getD k false = true ↔
        (lats.getD k 0 < lami ∨ lama < lats.getD k 0 ∨
         lons.getD k 0 < lomi ∨ loma < lons.getD k 0)) := by
      rw [hmk]
      simp only [Bool.or_eq_true, decide_eq_true_eq]
      tauto
    have hany : (List.zipWith (fun a b : Bool => a || b)
        (lats.map (fun l => decide (l < lami) || decide (lama < l)))
        (lons.map (fun l => decide (l < lomi) || decide (loma < l)))).any id = true := by
      refine any_id_of_getD (k := k0) (by omega) ?_
      rw [zipWith_getD false false false (by rw [List.length_map]; omega)
        (by rw [List.length_map]; omega), map_getD false 0 hk0,
        map_getD false 0 (by omega)]
      simp only [Bool.or_eq_true, decide_eq_true_eq]
      tauto
    refine ⟨hiff, ?_, ?_⟩
    · intro hmask
      simp only [apply_range, hany, if_pos]
      rw [zipWith_getD 0 0 false (by omega) (by omega),
        zipWith_getD 0 0 false (by omega) (by omega), hmask]
      norm_num [bq]
    · intro hmask
      simp only [apply_range, hany, if_pos]
      rw [zipWith_getD 0 0 false (by omega) (by omega),
        zipWith_getD 0 0 false (by omega) (by omega), hmask]
      norm_num [bq]

/-- Witness for C6: latitude 2 is above the box maximum 1; with sentinel 5
configured the guard substitutes angle 0 and speed 5. -/
theorem range_guard_policy_witness :
    ∃ mask, range_check (some 5) 0 1 (-1) 1 [(2 : ℚ)] [(0 : ℚ)] = .ok mask ∧
      ∀ k, k < ([(2 : ℚ)] : List ℚ).length →
        ((mask.getD k false = true ↔
          (([(2 : ℚ)] : List ℚ).getD k 0 < 0 ∨ 1 < ([(2 : ℚ)] : List ℚ).getD k 0 ∨
           ([(0 : ℚ)] : List ℚ).getD k 0 < -1 ∨ 1 < ([(0 : ℚ)] : List ℚ).getD k 0))
        ∧ (mask.getD k false = true →
          (apply_range (some 5) [(3 : ℚ)] [(4 : ℚ)] mask).1.getD k 0 = 0 ∧
          (apply_range (some 5) [(3 : ℚ)] [(4 : ℚ)] mask).2.getD k 0 = 5)
        ∧ (mask.getD k false = false →
          (apply_range (some 5) [(3 : ℚ)] [(4 : ℚ)] mask).1.getD k 0 =
            ([(3 : ℚ)] : List ℚ).getD k 0 ∧
          (apply_range (some 5) [(3 : ℚ)] [(4 : ℚ)] mask).2.getD k 0 =
            ([(4 : ℚ)] : List ℚ).getD k 0)) := by
  exact (range_guard_policy (some 5) 0 1 (-1) 1 [2] [0] [3] [4] rfl rfl rfl
    ⟨0, by decide, by decide⟩).2 5 rfl

/-- `map` commutes with `insertIdx`. -/
theorem map_insertIdx {α β : Type} (f : α → β) :
    ∀ (i : ℕ) (l : List α) (x : α),
    (l.insertIdx i x).map f = (l.map f).insertIdx i (f x)
  | 0, l, x => by simp
  | i + 1, [], x => by simp
  | i + 1, hd :: tl, x => by
    simp only [List.insertIdx_succ_cons, List.map_cons]
    rw [map_insertIdx f i tl x]

/-- Inserting a value at a position where everything before is smaller and
everything after is larger preserves strict sortedness. -/
theorem pairwise_lt_insertIdx :
    ∀ (i : ℕ) (l : List ℚ) (x : ℚ), i ≤ l.length →
    (∀ j, j < i → l.getD j 0 < x) →
    (∀ j, i ≤ j → j < l.length → x < l.getD j 0) →
    List.Pairwise (fun a b => a < b) l →
    List.Pairwise (fun a b => a < b) (l.insertIdx i x)
  | 0, l, x, hi, hlow, hhigh, hs => by
    simp only [List.insertIdx_zero]
    refine List.pairwise_cons.mpr ⟨?_, hs⟩
    intro y hy
    rcases List.mem_iff_getElem.mp hy with ⟨j, hj, he⟩
    have := hhigh j (Nat.zero_le _) hj
    rw [List.getD_eq_getElem _ _ hj] at this
    exact he ▸ this
  | i + 1, [], x, hi, hlow, hhigh, hs => by
    simp at hi
  | i + 1, hd :: tl, x, hi, hlow, hhigh, hs => by
    simp only [List.insertIdx_succ_cons]
    have hstl := List.pairwise_cons.mp hs
    refine List.pairwise_cons.mpr ⟨?_, ?_⟩
    · intro y hy
      rcases (List.mem_insertIdx (by simpa using hi)).mp hy with hyx | hytl
      · subst hyx
        have := hlow 0 (Nat.succ_pos _)
        simpa using this
      · exact hstl.1 y hytl
    · refine pairwise_lt_insertIdx i tl x (by simpa using hi) ?_ ?_ hstl.2
      · intro j hj
        have := hlow (j + 1) (Nat.succ_lt_succ hj)
        simpa using this
      · intro j hj hjl
        have := hhigh (j + 1) (Nat.succ_le_succ hj) (by simpa using hjl)
        simpa using this

/-- C7: on a series with strictly ascending timestamps, inserting a layer
whose timestamp equals an existing layer's timestamp replaces that layer in
place (same length), and inserting a layer with a fresh timestamp inserts it
at its sorted position (everything before is older, everything after is
newer); in both cases strict ascending order is preserved. -/
theorem insert_or_replace_spec (layers : List Layer) (layer : Layer)
    (hs : List.Pairwise (fun a b => a < b) (layers.map Layer.t)) :
    ((∃ j, j < layers.length ∧ (layers.getD j default).t = layer.t) →
      ∃ j, j < layers.length ∧ (layers.getD j default).t = layer.t ∧
        insert_or_replace layers layer = layers.set j layer ∧
        (insert_or_replace layers layer).length = layers.length ∧
        List.Pairwise (fun a b => a < b)
          ((insert_or_replace layers layer).map Layer.t))
    ∧ ((∀ j, j < layers.length → (layers.getD j default).t ≠ layer.t) →
      ∃ i, i ≤ layers.length ∧
        insert_or_replace layers layer = layers.insertIdx i layer ∧
        (∀ j, j < i → (layers.getD j default).t < layer.t) ∧
        (∀ j, i ≤ j → j < layers.length → layer.t < (layers.getD j default).t) ∧
        (insert_or_replace layers layer).length = layers.length + 1 ∧
        List.Pairwise (fun a b => a < b)
          ((insert_or_replace layers layer).map Layer.t)) := by
  have hsle : List.Pairwise (fun a b => a ≤ b) (layers.map Layer.t) :=
    hs.imp (fun h => le_of_lt h)
  have hlen : (layers.map Layer.t).length = layers.length := List.length_map _ _
  obtain ⟨hblen, hblow, hbhigh⟩ := bisectLeft_spec (layers.map Layer.t) layer.t hsle
  constructor
  · rintro ⟨j, hj, hjt⟩
    have hjt' : (layers.map Layer.t).getD j 0 = layer.t := by
      rw [times_getD hj]; exact hjt
    have hij : bisectLeft (layers.map Layer.t) layer.t = j := by
      rcases Nat.lt_trichotomy (bisectLeft (layers.map Layer.t) layer.t) j with h | h | h
      · exfalso
        have h1 := hbhigh _ (Nat.le_refl _) (by omega)
        have h2 : ((layers.map Layer.t).getD (bisectLeft (layers.map Layer.t) layer.t) 0)
            < (layers.map Layer.t).getD j 0 := by
          rw [List.getD_eq_getElem _ _ (by omega), List.getD_eq_getElem _ _ (by omega)]
          exact List.pairwise_iff_getElem.mp hs _ _ (by omega) (by omega) h
        rw [hjt'] at h2
        exact absurd h1 (not_le.mpr h2)
      · exact h
      · exfalso
        have := hblow j h
        rw [hjt'] at this
        exact lt_irrefl _ this
    have hcond : bisectLeft (layers.map Layer.t) layer.t < (layers.map Layer.t).length ∧
        layer.t = (layers.map Layer.t).getD (bisectLeft (layers.map Layer.t) layer.t) 0 := by
      constructor
      · omega
      · rw [hij, hjt']
    have heq : insert_or_replace layers layer = layers.set j layer := by
      simp only [insert_or_replace]
      rw [if_pos hcond, hij]
    refine ⟨j, hj, hjt, heq, ?_, ?_⟩
    · rw [heq]
      simp
    · rw [heq, List.map_set]
      have hset : ((layers.map Layer.t).set j layer.t) = layers.map Layer.t := by
        apply List.ext_getElem
        · simp
        · intro k hk1 hk2
          rw [List.getElem_set]
          by_cases hjk : j = k
          · subst hjk
            simp only [if_pos]
            rw [← hjt', List.getD_eq_getElem _ _ (by omega)]
          · simp [hjk]
      rw [hset]
      exact hs
  · intro hfresh
    have hcond : ¬(bisectLeft (layers.map Layer.t) layer.t < (layers.map Layer.t).length ∧
        layer.t = (layers.map Layer.t).getD (bisectLeft (layers.map Layer.t) layer.t) 0) := by
      rintro ⟨h1, h2⟩
      have hx := hfresh (bisectLeft (layers.map Layer.t) layer.t) (by omega)
      rw [← times_getD
        (by omega : bisectLeft (layers.map Layer.t) layer.t < layers.length)] at hx
      exact hx h2.symm
    have heq : insert_or_replace layers layer = layers.insertIdx
        (bisectLeft (layers.map Layer.t) layer.t) layer := by
      simp only [insert_or_replace]
      rw [if_neg hcond]
    have hlow' : ∀ j, j < bisectLeft (layers.map Layer.t) layer.t →
        (layers.getD j default).t < layer.t := by
      intro j hj
      rw [← times_getD (by omega : j < layers.length)]
      exact hblow j hj
    have hhigh' : ∀ j, bisectLeft (layers.map Layer.t) layer.t ≤ j →
        j < layers.length → layer.t < (layers.getD j default).t := by
      intro j hj hjl
      have h1 := hbhigh j hj (by omega)
      have h2 := hfresh j hjl
      rw [← times_getD hjl]
      rcases lt_or_eq_of_le h1 with h | h
      · exact h
      · exact absurd (times_getD hjl ▸ h.symm) h2
    refine ⟨bisectLeft (layers.map Layer.t) layer.t, by omega, heq, hlow', hhigh', ?_, ?_⟩
    · rw [heq, List.length_insertIdx _ _ (by omega)]
    · rw [heq, map_insertIdx]
      refine pairwise_lt_insertIdx _ _ _ (by omega) ?_ ?_ hs
      · intro j hj
        rw [times_getD (by omega : j < layers.length)]
        exact hlow' j hj
      · intro j hj hjl
        rw [times_getD (by omega : j < layers.length)]
        exact hhigh' j hj (by omega)

/-- Witness for C7 (replacement case): inserting a layer timestamped 10 into
a series holding timestamps 0 and 10 replaces the second layer in place. -/
theorem insert_or_replace_spec_witness :
    ∃ j, j < ([sampleLayer 0, sampleLayer 10] : List Layer).length ∧
      (([sampleLayer 0, sampleLayer 10] : List Layer).getD j default).t =
        (⟨10, none, fun _ _ => 1, none⟩ : Layer).t ∧
      insert_or_replace [sampleLayer 0, sampleLayer 10] ⟨10, none, fun _ _ => 1, none⟩ =
        [sampleLayer 0, sampleLayer 10].set j ⟨10, none, fun _ _ => 1, none⟩ ∧
      (insert_or_replace [sampleLayer 0, sampleLayer 10]
        ⟨10, none, fun _ _ => 1, none⟩).length =
        ([sampleLayer 0, sampleLayer 10] : List Layer).length ∧
      List.Pairwise (fun a b => a < b)
        ((insert_or_replace [sampleLayer 0, sampleLayer 10]
          ⟨10, none, fun _ _ => 1, none⟩).map Layer.t) := by
  exact (insert_or_replace_spec [sampleLayer 0, sampleLayer 10]
    ⟨10, none, fun _ _ => 1, none⟩ (by decide)).1 ⟨1, by decide, by decide⟩

/-- C5 (amended): the normalized longitude span of the mesh is
`xstep * (xsize - 1)` (the canonicalizing shifts move both ends together);
wraparound triggers exactly when that span exceeds `1.95*pi` — within 2.5%
of a full turn — while staying below a full turn: then the mesh gains one
column, the wrap flag is set, and every ingested band row is extended by its
first entry so its last column equals its first; outside that range nothing
is duplicated. -/
theorem mesh_wraparound (minx0 xstep d1 maxy0 d2 ystep : ℚ) (xsize ysize : ℕ)
    (hy : ystep < 0) :
    ∃ ms, mesh_from_transform (minx0, xstep, d1, maxy0, d2, ystep) xsize ysize =
        .ok ms ∧
      ((39/20 < xstep * ((xsize : ℚ) - 1) ∧ xstep * ((xsize : ℚ) - 1) < 2) →
        ms.wrap = true ∧ ms.xsize = xsize + 1 ∧
        (∀ a : List (List ℚ), ingest_band ms.wrap a =
          a.map (fun row => row ++ [row.getD 0 0])) ∧
        (∀ row : List ℚ, (row ++ [row.getD 0 0]).getLastD 0 = row.getD 0 0)) ∧
      (¬(39/20 < xstep * ((xsize : ℚ) - 1) ∧ xstep * ((xsize : ℚ) - 1) < 2) →
        ms.wrap = false ∧ ms.xsize = xsize ∧
        ∀ a : List (List ℚ), ingest_band ms.wrap a = a) := by
  have hlast : ∀ row : List ℚ, (row ++ [row.getD 0 0]).getLastD 0 = row.getD 0 0 := by
    intro row
    simp
  simp only [mesh_from_transform]
  rw [if_neg (not_le.mpr hy)]
  split
  · split
    · split
      · next hw =>
        refine ⟨_, rfl, fun _ => ⟨rfl, rfl, fun a => rfl, hlast⟩, fun hnot => ?_⟩
        exfalso
        apply hnot
        constructor <;> [linarith [hw.1]; linarith [hw.2]]
      · next hw =>
        refine ⟨_, rfl, fun hc => ?_, fun _ => ⟨rfl, rfl, fun a => rfl⟩⟩
        exfalso
        apply hw
        constructor <;> [linarith [hc.1]; linarith [hc.2]]
    · split
      · next hw =>
        refine ⟨_, rfl, fun _ => ⟨rfl, rfl, fun a => rfl, hlast⟩, fun hnot => ?_⟩
        exfalso
        apply hnot
        constructor <;> [linarith [hw.1]; linarith [hw.2]]
      · next hw =>
        refine ⟨_, rfl, fun hc => ?_, fun _ => ⟨rfl, rfl, fun a => rfl⟩⟩
        exfalso
        apply hw
        constructor <;> [linarith [hc.1]; linarith [hc.2]]
  · split
    · split
      · next hw =>
        refine ⟨_, rfl, fun _ => ⟨rfl, rfl, fun a => rfl, hlast⟩, fun hnot => ?_⟩
        exfalso
        apply hnot
        constructor <;> [linarith [hw.1]; linarith [hw.2]]
      · next hw =>
        refine ⟨_, rfl, fun hc => ?_, fun _ => ⟨rfl, rfl, fun a => rfl⟩⟩
        exfalso
        apply hw
        constructor <;> [linarith [hc.1]; linarith [hc.2]]
    · split
      · next hw =>
        refine ⟨_, rfl, fun _ => ⟨rfl, rfl, fun a => rfl, hlast⟩, fun hnot => ?_⟩
        exfalso
        apply hnot
        constructor <;> [linarith [hw.1]; linarith [hw.2]]
      · next hw =>
        refine ⟨_, rfl, fun hc => ?_, fun _ => ⟨rfl, rfl, fun a => rfl⟩⟩
        exfalso
        apply hw
        constructor <;> [linarith [hc.1]; linarith [hc.2]]

/-- C5 counterexample: a span of `1.92*pi` — 96% of a full turn, within 5%
of it and below it — does not trigger wraparound: the flag stays false
because the code's threshold is `1.95*pi`, not 95% of a full turn. -/
theorem mesh_wraparound_five_percent_cex :
    (2 - 1/100 * ((193 : ℚ) - 1)) / 2 ≤ 5/100 ∧
    (1/100 : ℚ) * ((193 : ℚ) - 1) < 2 ∧
    wrapFlag (mesh_from_transform (0, 1/100, 0, 1, 0, -1/100) 193 2) = false := by
  refine ⟨by norm_num, by norm_num, ?_⟩
  norm_num [mesh_from_transform, wrapFlag]

/-- Witness for C5's amended theorem: a span of `1.96*pi` triggers
wraparound and the band-column duplication. -/
theorem mesh_wraparound_witness :
    ∃ ms, mesh_from_transform (0, 1/100, 0, 1, 0, -1/100) 197 2 = .ok ms ∧
      ((39/20 < (1/100 : ℚ) * ((197 : ℚ) - 1) ∧ (1/100 : ℚ) * ((197 : ℚ) - 1) < 2) →
        ms.wrap = true ∧ ms.xsize = 197 + 1 ∧
        (∀ a : List (List ℚ), ingest_band ms.wrap a =
          a.map (fun row => row ++ [row.getD 0 0])) ∧
        (∀ row : List ℚ, (row ++ [row.getD 0 0]).getLastD 0 = row.getD 0 0)) ∧
      (¬(39/20 < (1/100 : ℚ) * ((197 : ℚ) - 1) ∧ (1/100 : ℚ) * ((197 : ℚ) - 1) < 2) →
        ms.wrap = false ∧ ms.xsize = 197 ∧
        ∀ a : List (List ℚ), ingest_band ms.wrap a = a) := by
  exact mesh_wraparound 0 (1/100) 0 1 0 (-1/100) 197 2 (by norm_num)

/-- The stamp accumulated by the four slice-adds is the sum over the
existing diagonal neighbours. -/
theorem stampCell_eq_diagSum (z : List (List ℚ)) (m n i j : ℕ)
    (hi : i < m) (hj : j < n) :
    stampCell z m n i j = diagSum z m n i j := by
  have t1 : ((i : ℤ) + (-1)).toNat = i - 1 := by omega
  have t2 : ((j : ℤ) + (-1)).toNat = j - 1 := by omega
  have t3 : ((i : ℤ) + 1).toNat = i + 1 := by omega
  have t4 : ((j : ℤ) + 1).toNat = j + 1 := by omega
  have z1 : (0 ≤ (i : ℤ) + (-1) ∧ (i : ℤ) + (-1) < (m : ℤ) ∧
      0 ≤ (j : ℤ) + (-1) ∧ (j : ℤ) + (-1) < (n : ℤ)) ↔ (1 ≤ i ∧ 1 ≤ j) := by
    omega
  have z2 : (0 ≤ (i : ℤ) + (-1) ∧ (i : ℤ) + (-1) < (m : ℤ) ∧
      0 ≤ (j : ℤ) + 1 ∧ (j : ℤ) + 1 < (n : ℤ)) ↔ (1 ≤ i ∧ j + 1 < n) := by
    omega
  have z3 : (0 ≤ (i : ℤ) + 1 ∧ (i : ℤ) + 1 < (m : ℤ) ∧
      0 ≤ (j : ℤ) + (-1) ∧ (j : ℤ) + (-1) < (n : ℤ)) ↔ (i + 1 < m ∧ 1 ≤ j) := by
    omega
  have z4 : (0 ≤ (i : ℤ) + 1 ∧ (i : ℤ) + 1 < (m : ℤ) ∧
      0 ≤ (j : ℤ) + 1 ∧ (j : ℤ) + 1 < (n : ℤ)) ↔ (i + 1 < m ∧ j + 1 < n) := by
    omega
  unfold stampCell diagSum diagOffsets
  simp only [List.map_cons, List.map_nil, List.sum_cons, List.sum_nil, t1, t2, t3, t4,
    z1, z2, z3, z4]
  ring

/-- C8: for a rectangular non-interlaced grid containing sentinel cells, the
reconstruction leaves every non-sentinel cell unchanged and sets each
sentinel cell to `0.4` times the sum of its existing diagonal neighbours'
values taken from the sentinel-zeroed grid. -/
theorem antialias_spec (a : List (List ℚ)) (n : ℕ)
    (hrect : ∀ row ∈ a, row.length = n)
    (hnd : has_nodata a = true) (hil : interlacedB a = false)
    (i j : ℕ) (hi : i < a.length) (hj : j < n) :
    (isNodata (cell a i j) = false → cell (reconstruct a) i j = cell a i j)
    ∧ (isNodata (cell a i j) = true → cell (reconstruct a) i j =
        (4/10) * diagSum (zero_nodata a) a.length n i j) := by
  have hrec : reconstruct a = antialias a := by
    simp [reconstruct, hnd, hil]
  have hlen0 : (a.getD 0 []).length = n := by
    have h0 : 0 < a.length := by omega
    rw [List.getD_eq_getElem _ _ h0]
    exact hrect _ (List.getElem_mem h0)
  have hcellZ : ∀ (ii jj : ℕ), ii < a.length →
      cell (zero_nodata a) ii jj = cell a ii jj * bq (!isNodata (cell a ii jj)) := by
    intro ii jj hii
    by_cases hjj : jj < (a.getD ii []).length
    · unfold zero_nodata cell
      rw [map_getD [] [] hii, map_getD 0 0 hjj]
    · unfold zero_nodata cell
      rw [map_getD [] [] hii]
      rw [List.getD_eq_default _ _ (by rw [List.length_map]; omega)]
      rw [List.getD_eq_default _ _ (by omega)]
      simp [isNodata, bq]
  have hcellA : cell (antialias a) i j =
      cell (zero_nodata a) i j + (4/10) * stampCell (zero_nodata a) a.length
        ((a.getD 0 []).length) i j * bq (isNodata (cell a i j)) := by
    unfold antialias cell
    rw [map_getD [] 0 (by simpa using hi)]
    have hri : (List.range a.length).getD i 0 = i := by
      rw [List.getD_eq_getElem _ _ (by simpa using hi)]
      exact List.getElem_range _ _
    rw [hri]
    rw [map_getD 0 0 (by rw [List.length_range, hlen0]; exact hj)]
    have hrj : (List.range ((a.getD 0 []).length)).getD j 0 = j := by
      rw [List.getD_eq_getElem _ _ (by rw [List.length_range, hlen0]; exact hj)]
      exact List.getElem_range _ _
    rw [hrj]
  constructor
  · intro hno
    rw [hrec, hcellA, hcellZ i j hi, hno]
    simp [bq]
  · intro hyes
    rw [hrec, hcellA, hcellZ i j hi, hyes, hlen0,
      stampCell_eq_diagSum (zero_nodata a) a.length n i j hi hj]
    simp [bq]

/-- Witness for C8: the grid `[[9999, 2], [3, 4]]` has one sentinel cell at
`(0, 0)`; cell `(1, 1)` is unchanged and cell `(0, 0)` becomes `0.4 * 4`. -/
theorem antialias_spec_witness :
    (isNodata (cell [[9999, 2], [3, 4]] 1 1) = false →
      cell (reconstruct [[9999, 2], [3, 4]]) 1 1 = cell [[9999, 2], [3, 4]] 1 1)
    ∧ (isNodata (cell [[9999, 2], [3, 4]] 1 1) = true →
      cell (reconstruct [[9999, 2], [3, 4]]) 1 1 =
        (4/10) * diagSum (zero_nodata [[9999, 2], [3, 4]]) 2 2 1 1) := by
  have h := antialias_spec [[9999, 2], [3, 4]] 2 (by
      intro row hrow
      rcases List.mem_cons.mp hrow with h | h
      · rw [h]
        rfl
      · rcases List.mem_cons.mp h with h2 | h2
        · rw [h2]
          rfl
        · simp at h2)
    (by decide) (by decide) 1 1 (by decide) (by decide)
  simpa using h

/-- A falsy sentinel option (`None` or `0`) has default value 0. -/
theorem truthy_false_getD {o : Option ℚ} (h : truthy o = false) : o.getD 0 = 0 := by
  cases o with
  | none => rfl
  | some v =>
    simp only [truthy, decide_eq_false_iff_not, not_not] at h
    simp [h]

/-- `lonsOf` preserves the number of positions. -/
theorem lonsOf_length (neglon : Bool) (positions : List (ℚ × ℚ)) :
    (lonsOf neglon positions).length = positions.length := by
  unfold lonsOf normLons
  by_cases hneg : neglon <;> simp [hneg]

/-- C4 (amended): a filtered current query evaluates the nodata-fraction
interpolant of the *later* bracketing layer (`self._cu[ti]`, the layer at
the lookup index); positions whose fraction is at or above `0.35` get angle
0 and the sentinel magnitude (0 when no truthy sentinel is configured), and
positions with fraction strictly below `0.35` are returned exactly as the
unfiltered query returns them.  The query positions are assumed in range
(the range guard mask is all-false). -/
theorem nodata_filter_later_layer (arctan2 : ℚ → ℚ → ℚ) (sqrtQ : ℚ → ℚ)
    (g : GribState) (positions : List (ℚ × ℚ)) (time : ℚ)
    (hs : List.Pairwise (fun a b => a ≤ b) (g.cu.map Layer.t))
    {j : ℕ} (hj1 : j + 1 < g.cu.length)
    (hle : (g.cu.map Layer.t).getD j 0 ≤ time)
    (hlt : time < (g.cu.map Layer.t).getD (j + 1) 0)
    (nd : ℚ → ℚ → ℚ)
    (hnd : (g.cu.getD (j + 1) default).nodata = some nd)
    (mask : List Bool)
    (hmask : range_check g.no_data_value g.lami g.lama g.lomi g.loma
      (latsOf positions) (lonsOf g.neglon positions) = .ok mask)
    (hin : ∀ b ∈ mask, b = false) :
    ∃ A S A2 S2,
      get_current arctan2 sqrtQ g positions time false = .ok (A, S) ∧
      get_current arctan2 sqrtQ g positions time true = .ok (A2, S2) ∧
      ∀ k, k < positions.length →
        ((35/100 ≤ nd ((latsOf positions).getD k 0)
            ((lonsOf g.neglon positions).getD k 0) →
          A2.getD k 0 = 0 ∧ S2.getD k 0 = g.no_data_value.getD 0)
        ∧ (nd ((latsOf positions).getD k 0)
            ((lonsOf g.neglon positions).getD k 0) < 35/100 →
          A2.getD k 0 = A.getD k 0 ∧ S2.getD k 0 = S.getD k 0)) := by
  have hp := parse_params_ok g.neglon positions time g.cu hs hj1 hle hlt
  generalize htf : (time - (g.cu.map Layer.t).getD j 0) /
      ((g.cu.map Layer.t).getD (j + 1) 0 - (g.cu.map Layer.t).getD j 0) = tf at hp
  have hlats : (latsOf positions).length = positions.length := List.length_map _ _
  have hlons : (lonsOf g.neglon positions).length = positions.length :=
    lonsOf_length _ _
  have hti : ∀ (L : List Layer) (f : ℚ),
      (time_interpol L (j + 1) f (latsOf positions)
        (lonsOf g.neglon positions)).length = positions.length := by
    intro L f
    simp [time_interpol, ev2, List.length_zipWith, hlats, hlons]
  refine ⟨((List.zipWith arctan2 (time_interpol g.cu (j + 1) tf (latsOf positions) (lonsOf g.neglon positions)) (time_interpol g.cv (j + 1) tf (latsOf positions) (lonsOf g.neglon positions))).map (fun a => a + bq (decide (a < 0)) * 2)),
    (List.zipWith (fun a b => sqrtQ (a * a + b * b)) (time_interpol g.cu (j + 1) tf (latsOf positions) (lonsOf g.neglon positions)) (time_interpol g.cv (j + 1) tf (latsOf positions) (lonsOf g.neglon positions))),
    (List.zipWith (fun a h => a * bq h) ((List.zipWith arctan2 (time_interpol g.cu (j + 1) tf (latsOf positions) (lonsOf g.neglon positions)) (time_interpol g.cv (j + 1) tf (latsOf positions) (lonsOf g.neglon positions))).map (fun a => a + bq (decide (a < 0)) * 2)) (List.zipWith (fun la lo => decide (nd la lo < 35/100)) (latsOf positions) (lonsOf g.neglon positions))),
    (if truthy g.no_data_value then List.zipWith (fun s h => s + bq (!h) * g.no_data_value.getD 0) (List.zipWith (fun s h => s * bq h) (List.zipWith (fun a b => sqrtQ (a * a + b * b)) (time_interpol g.cu (j + 1) tf (latsOf positions) (lonsOf g.neglon positions)) (time_interpol g.cv (j + 1) tf (latsOf positions) (lonsOf g.neglon positions))) (List.zipWith (fun la lo => decide (nd la lo < 35/100)) (latsOf positions) (lonsOf g.neglon positions))) (List.zipWith (fun la lo => decide (nd la lo < 35/100)) (latsOf positions) (lonsOf g.neglon positions)) else (List.zipWith (fun s h => s * bq h) (List.zipWith (fun a b => sqrtQ (a * a + b * b)) (time_interpol g.cu (j + 1) tf (latsOf positions) (lonsOf g.neglon positions)) (time_interpol g.cv (j + 1) tf (latsOf positions) (lonsOf g.neglon positions))) (List.zipWith (fun la lo => decide (nd la lo < 35/100)) (latsOf positions) (lonsOf g.neglon positions)))), ?_, ?_, ?_⟩
  · simp only [get_current, hp, hmask, bind, Except.bind, pure, Except.pure,
      Bool.false_eq_true, if_false]
    rw [apply_range_id hin]
  · simp only [get_current, hp, hmask, bind, Except.bind, pure, Except.pure,
      if_true, hnd]
    rw [apply_range_id hin]
  · intro k hk
    have hkla : k < (latsOf positions).length := by omega
    have hklo : k < (lonsOf g.neglon positions).length := by omega
    have hku : k < (time_interpol g.cu (j + 1) tf (latsOf positions)
        (lonsOf g.neglon positions)).length := by rw [hti]; omega
    have hkv : k < (time_interpol g.cv (j + 1) tf (latsOf positions)
        (lonsOf g.neglon positions)).length := by rw [hti]; omega
    have hk0 : k < (List.zipWith arctan2
        (time_interpol g.cu (j + 1) tf (latsOf positions) (lonsOf g.neglon positions))
        (time_interpol g.cv (j + 1) tf (latsOf positions)
          (lonsOf g.neglon positions))).length := by
      rw [List.length_zipWith]
      omega
    have hk1 : k < ((List.zipWith arctan2
        (time_interpol g.cu (j + 1) tf (latsOf positions) (lonsOf g.neglon positions))
        (time_interpol g.cv (j + 1) tf (latsOf positions)
          (lonsOf g.neglon positions))).map
          (fun a => a + bq (decide (a < 0)) * 2)).length := by
      rw [List.length_map]
      omega
    have hks : k < (List.zipWith (fun a b => sqrtQ (a * a + b * b))
        (time_interpol g.cu (j + 1) tf (latsOf positions) (lonsOf g.neglon positions))
        (time_interpol g.cv (j + 1) tf (latsOf positions)
          (lonsOf g.neglon positions))).length := by
      rw [List.length_zipWith]
      omega
    have hkhd : k < (List.zipWith
        (fun la lo => decide (nd la lo < 35/100))
        (latsOf positions) (lonsOf g.neglon positions)).length := by
      rw [List.length_zipWith]
      omega
    have hhdk : (List.zipWith (fun la lo => decide (nd la lo < 35/100))
        (latsOf positions) (lonsOf g.neglon positions)).getD k false =
        decide (nd ((latsOf positions).getD k 0)
          ((lonsOf g.neglon positions).getD k 0) < 35/100) :=
      zipWith_getD false 0 0 hkla hklo
    constructor
    · intro hge
      have hdk : (List.zipWith (fun la lo => decide (nd la lo < 35/100))
          (latsOf positions) (lonsOf g.neglon positions)).getD k false = false := by
        rw [hhdk]
        exact decide_eq_false (not_lt.mpr hge)
      constructor
      · rw [zipWith_getD 0 0 false hk1 hkhd, hdk]
        simp [bq]
      · by_cases htr : truthy g.no_data_value
        · rw [if_pos htr]
          rw [zipWith_getD 0 0 false (by rw [List.length_zipWith]; omega) hkhd,
            zipWith_getD 0 0 false hks hkhd, hdk]
          simp [bq]
        · rw [if_neg htr]
          rw [zipWith_getD 0 0 false hks hkhd, hdk]
          rw [truthy_false_getD (Bool.eq_false_iff.mpr htr)]
          simp [bq]
    · intro hltf
      have hdk : (List.zipWith (fun la lo => decide (nd la lo < 35/100))
          (latsOf positions) (lonsOf g.neglon positions)).getD k false = true := by
        rw [hhdk]
        exact decide_eq_true hltf
      constructor
      · rw [zipWith_getD 0 0 false hk1 hkhd, hdk]
        simp [bq]
      · by_cases htr : truthy g.no_data_value
        · rw [if_pos htr]
          rw [zipWith_getD 0 0 false (by rw [List.length_zipWith]; omega) hkhd,
            zipWith_getD 0 0 false hks hkhd, hdk]
          simp [bq]
        · rw [if_neg htr]
          rw [zipWith_getD 0 0 false hks hkhd, hdk]
          simp [bq]

/-- C4 counterexample: at query time 50 the earlier bracketing layer's
nodata fraction at the query position is 0 — not above 0.35, so the claim
says the position is returned unmodified — yet the filtered query blanks it
(the code evaluates the later layer's interpolant, whose fraction is 1):
the unfiltered query returns angle 1 and speed 2, the filtered one 0 and 0. -/
theorem nodata_filter_earlier_layer_cex :
    get_current (fun _ _ => 1) (fun _ => 2) nodataCexState
      [((0 : ℚ), (0 : ℚ))] 50 false = .ok ([1], [2])
    ∧ get_current (fun _ _ => 1) (fun _ => 2) nodataCexState
      [((0 : ℚ), (0 : ℚ))] 50 true = .ok ([0], [0])
    ∧ (nodataCexState.cu.getD 0 default).nodata = some (fun _ _ => (0 : ℚ))
    ∧ ¬((35 : ℚ)/100 < 0)
    ∧ (([(0 : ℚ)], [(0 : ℚ)]) : List ℚ × List ℚ) ≠ ([1], [2]) := by
  have hp := parse_params_ok true [((0 : ℚ), (0 : ℚ))] 50 nodataCexState.cu
    (by decide) (j := 0) (by decide) (by decide) (by decide)
  refine ⟨?_, ?_, rfl, by norm_num, by simp⟩
  · simp only [get_current, nodataCexState] at hp ⊢
    rw [hp]
    norm_num [latsOf, lonsOf, normLons, range_check, time_interpol, ev2,
      apply_range, compress, bq, truthy, bind, Except.bind, pure, Except.pure]
  · simp only [get_current, nodataCexState] at hp ⊢
    rw [hp]
    norm_num [latsOf, lonsOf, normLons, range_check, time_interpol, ev2,
      apply_range, compress, bq, truthy, bind, Except.bind, pure, Except.pure]

/-- Witness for C4's amended theorem at the counterexample state: the later
layer's fraction is constantly 1, above the cutoff, so the single query
position is blanked. -/
theorem nodata_filter_later_layer_witness :
    ∃ A S A2 S2,
      get_current (fun _ _ => 1) (fun _ => 2) nodataCexState
        [((0 : ℚ), (0 : ℚ))] 50 false = .ok (A, S) ∧
      get_current (fun _ _ => 1) (fun _ => 2) nodataCexState
        [((0 : ℚ), (0 : ℚ))] 50 true = .ok (A2, S2) ∧
      ∀ k, k < ([((0 : ℚ), (0 : ℚ))] : List (ℚ × ℚ)).length →
        ((35/100 ≤ (fun _ _ => (1 : ℚ)) ((latsOf [((0 : ℚ), (0 : ℚ))]).getD k 0)
            ((lonsOf nodataCexState.neglon [((0 : ℚ), (0 : ℚ))]).getD k 0) →
          A2.getD k 0 = 0 ∧ S2.getD k 0 = nodataCexState.no_data_value.getD 0)
        ∧ ((fun _ _ => (1 : ℚ)) ((latsOf [((0 : ℚ), (0 : ℚ))]).getD k 0)
            ((lonsOf nodataCexState.neglon [((0 : ℚ), (0 : ℚ))]).getD k 0) < 35/100 →
          A2.getD k 0 = A.getD k 0 ∧ S2.getD k 0 = S.getD k 0)) := by
  exact nodata_filter_later_layer (fun _ _ => 1) (fun _ => 2) nodataCexState
    [((0 : ℚ), (0 : ℚ))] 50 (by decide) (j := 0) (by decide) (by decide) (by decide)
    (fun _ _ => 1) rfl [false] rfl (by simp)

end Optsail
